import Mathlib

/-!
Verification of the aggregation base contract of the repository
(`torch_geometric/nn/aggr/base.py`): the `Aggregation.__call__` validation
and group-size resolution wrapper, its error-reinterpretation handler, the
`Aggregation.reduce` dispatch between the pointer (segment) path and the
index (scatter) path, the `WeightedAggregation.__call__` wrapper, and the
sorted-index assertion.

Tensors are modelled at the level the wrapper code inspects them: a shape
(list of axis lengths).  The numeric reduction paths are modelled on a
single feature channel along the aggregation axis: the feature tensor is a
list of rationals, the grouping an index list or a CSR boundary-pointer
list.  Machine floating point is idealised by exact rational arithmetic, so
the numeric-closeness tolerance of the specification becomes equality.
-/

/-- Structured model of the Python exceptions raised by the source.  Each
constructor records the data interpolated into the corresponding message.
`dimOutOfRange`, `indexFault` and `runtimeFault` model the engine-level
`IndexError` / `RuntimeError` classes; the remaining constructors model the
`ValueError`, `NotImplementedError` and `AssertionError` raised by the
wrapper code itself. -/
inductive PyErr where
  | invalidDimension (dim : ℤ) (rank : ℕ)
  | invalidDimSizePtr (got expected : ℤ)
  | invalidDimSizeScatter (got requiredMin : ℤ)
  | weightNotOneDim (gotRank : ℕ)
  | weightSizeMismatch (xSize wSize : ℕ)
  | notSorted
  | indexRequired
  | weightRequired
  | dimOutOfRange (dim : ℤ) (rank : ℕ)
  | indexFault
  | runtimeFault
  | otherFault
  | assertionFailed
  deriving DecidableEq

/-- The exception classes caught by the `except (IndexError, RuntimeError)`
clause of `Aggregation.__call__`: `dimOutOfRange` and `indexFault` are
`IndexError`s, `runtimeFault` is a `RuntimeError`; everything else
(`ValueError`, `NotImplementedError`, `AssertionError`) is not caught. -/
def PyErr.isCaught : PyErr → Bool
  | .dimOutOfRange _ _ => true
  | .indexFault => true
  | .runtimeFault => true
  | _ => false

/-- Shape-level model of a tensor: the list of its axis lengths.  The
wrapper code under verification inspects tensors only through `dim()` and
`size(d)`. -/
structure Tensor where
  shape : List ℕ
  deriving DecidableEq

/-- Model of `Tensor.dim()`: the rank. -/
def Tensor.dim (t : Tensor) : ℕ := t.shape.length

/-- Model of `Tensor.size(d)` for a valid axis `d` (negative indices
address axes from the back); `none` when `d` is out of range. -/
def Tensor.size? (t : Tensor) (d : ℤ) : Option ℕ :=
  if 0 ≤ d ∧ d < (t.dim : ℤ) then t.shape[d.toNat]?
  else if -(t.dim : ℤ) ≤ d ∧ d < 0 then t.shape[(d + t.dim).toNat]?
  else none

/-- Model of `Tensor.size(d)` as the engine performs it: an out-of-range
axis raises a raw `IndexError` stating the dimension and the rank. -/
def Tensor.size (t : Tensor) (d : ℤ) : Except PyErr ℕ :=
  match t.size? d with
  | some n => .ok n
  | none => .error (PyErr.dimOutOfRange d t.dim)

/-- Model of `Tensor.size(0)` for the (rank-checked) weight vector. -/
def Tensor.size0 (t : Tensor) : ℕ := t.shape.headD 0

/-- Model of `int(index.max())` on a non-empty integer tensor (the value on
an empty list is never used by the source, which guards with `numel() > 0`). -/
def listMaxZ : List ℤ → ℤ
  | [] => 0
  | a :: t => t.foldl max a

/-- The arguments of `Aggregation.__call__` after validation and
resolution, as they are handed to the concrete strategy (`forward`). -/
structure CanonArgs where
  x : Tensor
  index : Option (List ℤ)
  ptr : Option (List ℤ)
  dimSize : Option ℤ
  dim : ℤ
  deriving DecidableEq

/-- The validation and resolution prefix of `Aggregation.__call__`
(base.py lines 106-122): reject an out-of-range `dim`; synthesize the
single-group zero index when neither `index` nor `ptr` is given (the
`size?` lookup cannot fail here because `dim` was just validated); check or
infer `dim_size` from `ptr`; infer `dim_size` from `index` when still
absent. -/
def resolveGrouping (x : Tensor) (index : Option (List ℤ)) (ptr : Option (List ℤ))
    (dimSize : Option ℤ) (dim : ℤ) : Except PyErr CanonArgs := do
  if dim ≥ (x.dim : ℤ) ∨ dim < -(x.dim : ℤ) then
    throw (PyErr.invalidDimension dim x.dim)
  let index := if index.isNone && ptr.isNone
    then some (List.replicate ((x.size? dim).getD 0) (0 : ℤ)) else index
  let dimSize ←
    match ptr with
    | some p =>
      match dimSize with
      | none => pure (some ((p.length : ℤ) - 1))
      | some d =>
        if d ≠ (p.length : ℤ) - 1 then
          throw (PyErr.invalidDimSizePtr d ((p.length : ℤ) - 1))
        else
          pure (some d)
    | none => pure dimSize
  let dimSize :=
    match dimSize with
    | some d => some d
    | none =>
      match index with
      | some i => some (if 0 < i.length then listMaxZ i + 1 else 0)
      | none => none
  pure ⟨x, index, ptr, dimSize, dim⟩

/-- The `except (IndexError, RuntimeError)` handler of
`Aggregation.__call__` (base.py lines 124-133): a caught engine fault is
replaced by a precise invalid-`dim_size` error when the canonical `index`
is present and non-empty and the resolved `dim_size` does not exceed its
maximum; otherwise the original fault is re-raised.  (When `index` is
present the resolution step always produced a `dim_size`.) -/
def scatterCatch {β : Type} (c : CanonArgs) (r : Except PyErr β) : Except PyErr β :=
  match r with
  | .ok y => .ok y
  | .error e =>
    if e.isCaught then
      match c.index, c.dimSize with
      | some i, some d =>
        if 0 < i.length ∧ d ≤ listMaxZ i then
          .error (PyErr.invalidDimSizeScatter d (listMaxZ i + 1))
        else .error e
      | _, _ => .error e
    else .error e

/-- Model of `Aggregation.__call__` (base.py lines 96-133): validate and
resolve the grouping, delegate to the concrete strategy `fwd`, and
reinterpret caught engine faults.  The concrete strategy is a parameter
because the concrete aggregators live outside the verified file. -/
def Aggregation.call {β : Type} (fwd : CanonArgs → Except PyErr β) (x : Tensor)
    (index : Option (List ℤ)) (ptr : Option (List ℤ)) (dimSize : Option ℤ)
    (dim : ℤ) : Except PyErr β := do
  let c ← resolveGrouping x index ptr dimSize dim
  scatterCatch c (fwd c)

/-- Model of `WeightedAggregation.__call__` (base.py lines 253-278): when
neither `index` nor `ptr` is given, synthesize the single-group zero index
of length `x.size(dim)` (a raw engine fault when `dim` is out of range);
then require a supplied `weight` to be one-dimensional and to match
`x.size(dim)` in length (the latter again reading `x.size(dim)` raw);
finally delegate to the base `Aggregation.__call__`. -/
def WeightedAggregation.call {β : Type} (fwd : Option Tensor → CanonArgs → Except PyErr β)
    (x : Tensor) (index : Option (List ℤ)) (weight : Option Tensor)
    (ptr : Option (List ℤ)) (dimSize : Option ℤ) (dim : ℤ) : Except PyErr β := do
  let index ←
    if index.isNone && ptr.isNone then do
      let n ← x.size dim
      pure (some (List.replicate n (0 : ℤ)))
    else
      pure index
  match weight with
  | some w =>
    if w.dim ≠ 1 then throw (PyErr.weightNotOneDim w.dim) else pure ()
  | none => pure ()
  match weight with
  | some w => do
    let n ← x.size dim
    if w.size0 ≠ n then throw (PyErr.weightSizeMismatch n w.size0) else pure ()
  | none => pure ()
  Aggregation.call (fwd weight) x index ptr dimSize dim

/-- Model of `Aggregation.assert_sorted_index` (base.py lines 147-154):
fail unless every adjacent pair of the supplied index is non-decreasing
(`torch.all(index[:-1] <= index[1:])`); a missing index passes. -/
def Aggregation.assert_sorted_index (index : Option (List ℤ)) : Except PyErr Unit :=
  match index with
  | none => .ok ()
  | some l =>
    if (l.zip l.tail).all (fun p => decide (p.1 ≤ p.2)) then .ok ()
    else .error PyErr.notSorted

/-- Model of `Aggregation.__call__` with the aggregator's parameter state
threaded explicitly.  Modelled from the spec: the concrete `forward` is a
pure function of the learnable parameters and the inputs, and the source
`__call__` assigns to no attribute of `self`, so the state is returned
unchanged. -/
def Aggregation.statefulCall {σ β : Type} (fwd : σ → CanonArgs → Except PyErr β)
    (params : σ) (x : Tensor) (index : Option (List ℤ)) (ptr : Option (List ℤ))
    (dimSize : Option ℤ) (dim : ℤ) : Except PyErr (β × σ) :=
  (Aggregation.call (fwd params) x index ptr dimSize dim).map (fun y => (y, params))

/-- The named reductions dispatched by `Aggregation.reduce` to the engine
primitives (`scatter` / `segment`). -/
inductive RedKind where
  | sum
  | mean
  | amax
  | amin
  | mul
  deriving DecidableEq

/-- Mean of a list of rationals; the empty group yields `0`, per the
specification's empty-group policy. -/
def meanList (l : List ℚ) : ℚ :=
  if l.length = 0 then 0 else l.sum / l.length

/-- Maximum of a list of rationals; the empty group's sentinel is mapped to
`0` post-hoc, per the specification's empty-group policy. -/
def maxList : List ℚ → ℚ
  | [] => 0
  | a :: t => t.foldl max a

/-- Minimum of a list of rationals; the empty group's sentinel is mapped to
`0` post-hoc, per the specification's empty-group policy. -/
def minList : List ℚ → ℚ
  | [] => 0
  | a :: t => t.foldl min a

/-- Modelled from the spec: the value of each named engine reduction on the
list of elements of one group (`torch_geometric.utils.scatter` /
`segment` are external collaborators, absent from the verified sources;
section 4.4 of the specification gives their per-group semantics and
empty-group identities). -/
def redList : RedKind → List ℚ → ℚ
  | .sum => fun l => l.sum
  | .mean => meanList
  | .amax => maxList
  | .amin => minList
  | .mul => fun l => l.prod

/-- Population variance of a list of rationals: the mean of the squared
deviations from the list's mean; `0` on empty and singleton groups. -/
def varList (l : List ℚ) : ℚ :=
  meanList (l.map (fun v => (v - meanList l) ^ 2))

/-- Standard deviation with the numeric square root left abstract (`sq`)
and the variance clamped at `0` first, per the specification's
numerical-stabilisation policy. -/
def stdList (sq : ℚ → ℚ) (l : List ℚ) : ℚ :=
  sq (max (varList l) 0)

/-- The elements of `x` assigned to group `g` by the index vector, in input
order. -/
def groupElems (x : List ℚ) (index : List ℕ) (g : ℕ) : List ℚ :=
  ((x.zip index).filter (fun p => p.2 == g)).map Prod.fst

/-- Modelled from the spec: the index (scatter) path of the engine — every
element is reduced into the group named by its index entry; groups no
element maps to get the reduction's identity value. -/
def scatterModel (f : List ℚ → ℚ) (x : List ℚ) (index : List ℕ) (dimSize : ℕ) :
    List ℚ :=
  (List.range dimSize).map (fun g => f (groupElems x index g))

/-- The contiguous slice of `x` delimited by boundary pointers `p[g]` and
`p[g+1]`. -/
def sliceSeg (x : List ℚ) (p : List ℕ) (g : ℕ) : List ℚ :=
  (x.drop (p.getD g 0)).take (p.getD (g + 1) 0 - p.getD g 0)

/-- Modelled from the spec: the pointer (segment) path of the engine — for
each of the `len(ptr) - 1` groups, reduce the contiguous slice delimited by
its boundary pointers; an empty slice gets the reduction's identity value. -/
def segmentModel (f : List ℚ → ℚ) (x : List ℚ) (p : List ℕ) : List ℚ :=
  (List.range (p.length - 1)).map (fun g => f (sliceSeg x p g))

/-- The CSR boundary pointer equivalent to a sorted index vector: entry `g`
counts the elements assigned to groups below `g`. -/
def csrPtr (index : List ℕ) (dimSize : ℕ) : List ℕ :=
  (List.range (dimSize + 1)).map (fun g => index.countP (fun v => decide (v < g)))

/-- Model of `int(index.max()) + 1 if index.numel() > 0 else 0`, the
`dim_size` inference the engine's scatter applies when none is given. -/
def inferredDimSize (index : List ℕ) : ℕ :=
  match index with
  | [] => 0
  | a :: t => t.foldl max a + 1

/-- The dispatch shared by the reduce helper and the basic aggregators:
the pointer path when `ptr` is present, otherwise the index path
(`assert index is not None` fails when both are absent). -/
def dispatchReduce (f : List ℚ → ℚ) (x : List ℚ) (index : Option (List ℕ))
    (ptr : Option (List ℕ)) (dimSize : Option ℕ) : Except PyErr (List ℚ) :=
  match ptr with
  | some p => .ok (segmentModel f x p)
  | none =>
    match index with
    | some i => .ok (scatterModel f x i (dimSize.getD (inferredDimSize i)))
    | none => .error PyErr.assertionFailed

/-- Model of `Aggregation.reduce` (base.py lines 167-182): with `ptr`
present the segment path is taken (the `expand_left` reshape is shape
bookkeeping invisible on one channel); otherwise `index` must be present
and the scatter path is taken. -/
def Aggregation.reduce (red : RedKind) (x : List ℚ) (index : Option (List ℕ))
    (ptr : Option (List ℕ)) (dimSize : Option ℕ) : Except PyErr (List ℚ) :=
  dispatchReduce (redList red) x index ptr dimSize

/-- The six basic reduction strategies named by the path-equivalence claim. -/
inductive BasicKind where
  | sum
  | mean
  | amax
  | amin
  | var
  | std
  deriving DecidableEq

/-- The forward computation of each basic aggregator on one channel:
Sum/Mean/Max/Min go through `Aggregation.reduce` directly; Var and Std are
modelled from the spec (section 4.5): per group, the mean of squared
deviations from the group mean, and its clamped square root (`sq` abstract). -/
def basicForward (sq : ℚ → ℚ) : BasicKind → List ℚ → Option (List ℕ) →
    Option (List ℕ) → Option ℕ → Except PyErr (List ℚ)
  | .sum => Aggregation.reduce .sum
  | .mean => Aggregation.reduce .mean
  | .amax => Aggregation.reduce .amax
  | .amin => Aggregation.reduce .amin
  | .var => dispatchReduce varList
  | .std => dispatchReduce (stdList sq)

/-- A group none of whose candidates occurs in the index collects no
elements. -/
theorem groupElems_eq_nil (x : List ℚ) (i : List ℕ) (g : ℕ)
    (h : ∀ b ∈ i, b ≠ g) : groupElems x i g = [] := by
  unfold groupElems
  rw [List.filter_eq_nil_iff.mpr, List.map_nil]
  intro p hp
  have h2 := (List.of_mem_zip hp).2
  simpa using h p.2 h2

/-- On a sorted index all of whose entries are at least `g`, the elements
of group `g` form a prefix of length `count (= g)`. -/
theorem groupElems_eq_take : ∀ (i : List ℕ) (x : List ℚ) (g : ℕ),
    List.Sorted (· ≤ ·) i → (∀ b ∈ i, g ≤ b) → x.length = i.length →
    groupElems x i g = x.take (i.countP (fun v => v == g))
  | [], x, g, _, _, hlen => by
    have hx : x = [] := List.eq_nil_of_length_eq_zero hlen
    subst hx; rfl
  | j :: is, x, g, hsort, hge, hlen => by
    match x with
    | [] => simp at hlen
    | a :: xs =>
      have hlen' : xs.length = is.length := by simpa using hlen
      obtain ⟨hj, hsort'⟩ := List.sorted_cons.mp hsort
      by_cases hjg : j = g
      · subst hjg
        have hcons : groupElems (a :: xs) (j :: is) j = a :: groupElems xs is j := by
          unfold groupElems
          simp [List.zip_cons_cons, List.filter_cons]
        rw [hcons, List.countP_cons]
        simp only [beq_self_eq_true, if_true, List.take_succ_cons]
        rw [groupElems_eq_take is xs j hsort' (fun b hb => hj b hb) hlen']
      · have hgj : g < j := lt_of_le_of_ne (hge j (by simp)) (Ne.symm hjg)
        have hnone : ∀ b ∈ j :: is, b ≠ g := by
          intro b hb
          rcases List.mem_cons.mp hb with rfl | hb
          · exact hjg
          · exact Nat.ne_of_gt (lt_of_lt_of_le hgj (hj b hb))
        rw [groupElems_eq_nil _ _ _ hnone]
        have hcount : (j :: is).countP (fun v => v == g) = 0 := by
          rw [List.countP_eq_zero]
          intro b hb
          simpa using hnone b hb
        rw [hcount, List.take_zero]

/-- Count of index entries strictly below `g`: the CSR boundary of group
`g` on a sorted index. -/
def cLt (i : List ℕ) (g : ℕ) : ℕ := i.countP (fun v => decide (v < g))

/-- On a sorted index, the elements of group `g` are exactly the contiguous
slice between the counts of entries below `g` and below `g + 1`. -/
theorem groupElems_eq_slice : ∀ (i : List ℕ) (x : List ℚ) (g : ℕ),
    List.Sorted (· ≤ ·) i → x.length = i.length →
    groupElems x i g = (x.drop (cLt i g)).take (cLt i (g + 1) - cLt i g)
  | [], x, g, _, hlen => by
    have hx : x = [] := List.eq_nil_of_length_eq_zero hlen
    subst hx; rfl
  | j :: is, x, g, hsort, hlen => by
    match x with
    | [] => simp at hlen
    | a :: xs =>
      have hlen' : xs.length = is.length := by simpa using hlen
      obtain ⟨hj, hsort'⟩ := List.sorted_cons.mp hsort
      rcases Nat.lt_trichotomy j g with hlt | heq | hgt
      · have hg1 : groupElems (a :: xs) (j :: is) g = groupElems xs is g := by
          unfold groupElems
          simp [List.filter_cons, Nat.ne_of_lt hlt]
        have hc1 : cLt (j :: is) g = cLt is g + 1 := by
          simp [cLt, List.countP_cons, hlt]
        have hc2 : cLt (j :: is) (g + 1) = cLt is (g + 1) + 1 := by
          simp [cLt, List.countP_cons, Nat.lt_succ_of_lt hlt]
        rw [hg1, hc1, hc2, Nat.succ_sub_succ, List.drop_succ_cons]
        exact groupElems_eq_slice is xs g hsort' hlen'
      · subst heq
        have hc1 : cLt (j :: is) j = 0 := by
          rw [cLt, List.countP_eq_zero]
          intro b hb
          rcases List.mem_cons.mp hb with rfl | hb
          · simp
          · simpa using Nat.not_lt.mpr (hj b hb)
        have hc2 : cLt (j :: is) (j + 1) = is.countP (fun v => v == j) + 1 := by
          rw [cLt, List.countP_cons]
          simp only [Nat.lt_succ_self, decide_True, if_true]
          congr 1
          apply List.countP_congr
          intro b hb
          have hb' := hj b hb
          simp only [decide_eq_true_eq, beq_iff_eq]
          omega
        have hg1 : groupElems (a :: xs) (j :: is) j = a :: groupElems xs is j := by
          unfold groupElems
          simp [List.filter_cons]
        rw [hg1, hc1, hc2, List.drop_zero, Nat.sub_zero, List.take_succ_cons]
        rw [groupElems_eq_take is xs j hsort' hj hlen']
      · have hnone : ∀ b ∈ j :: is, b ≠ g := by
          intro b hb
          rcases List.mem_cons.mp hb with rfl | hb
          · exact Nat.ne_of_gt hgt
          · exact Nat.ne_of_gt (lt_of_lt_of_le hgt (hj b hb))
        have hc1 : cLt (j :: is) g = 0 := by
          rw [cLt, List.countP_eq_zero]
          intro b hb
          rcases List.mem_cons.mp hb with rfl | hb
          · simpa using Nat.not_lt.mpr (Nat.le_of_lt hgt)
          · simpa using Nat.not_lt.mpr (Nat.le_of_lt (lt_of_lt_of_le hgt (hj b hb)))
        have hc2 : cLt (j :: is) (g + 1) = 0 := by
          rw [cLt, List.countP_eq_zero]
          intro b hb
          rcases List.mem_cons.mp hb with rfl | hb
          · simpa using Nat.not_lt.mpr hgt
          · simpa using Nat.not_lt.mpr (le_trans hgt (hj b hb))
        rw [groupElems_eq_nil _ _ _ hnone, hc1, hc2]
        simp

/-- Entry `g` of the CSR pointer of a sorted index is the count of entries
below `g`. -/
theorem csrPtr_getD (i : List ℕ) (d g : ℕ) (h : g < d + 1) :
    (csrPtr i d).getD g 0 = cLt i g := by
  unfold csrPtr
  rw [List.getD_eq_getElem?_getD, List.getElem?_map, List.getElem?_range h]
  rfl

/-- The CSR pointer of an index with `d` groups has `d + 1` entries. -/
theorem csrPtr_length (i : List ℕ) (d : ℕ) : (csrPtr i d).length = d + 1 := by
  simp [csrPtr]

/-- The scatter path on a sorted index agrees with the segment path on its
CSR pointer, for every per-group reduction. -/
theorem scatter_eq_segment (f : List ℚ → ℚ) (x : List ℚ) (i : List ℕ) (d : ℕ)
    (hsort : List.Sorted (· ≤ ·) i) (hlen : x.length = i.length) :
    scatterModel f x i d = segmentModel f x (csrPtr i d) := by
  unfold scatterModel segmentModel
  rw [csrPtr_length, Nat.add_sub_cancel]
  apply List.map_congr_left
  intro g hg
  have hgd : g < d := List.mem_range.mp hg
  congr 1
  rw [sliceSeg, csrPtr_getD i d g (Nat.lt_succ_of_lt hgd),
    csrPtr_getD i d (g + 1) (Nat.succ_lt_succ hgd)]
  exact groupElems_eq_slice i x g hsort hlen

/-- C1: for every basic reduction kind among sum, mean, max, min, var and
std and every non-empty input, the reduce helper invoked with an index
grouping and invoked with the equivalent CSR boundary pointer over the same
elements sorted contiguously by group produces the same per-group results
(exact rational arithmetic renders the numeric tolerance as equality): the
segment (pointer) path and the scatter (index) path agree on equivalent
groupings. -/
theorem c1_basic_index_ptr_agree (sq : ℚ → ℚ) (k : BasicKind) (x : List ℚ)
    (i : List ℕ) (d : ℕ) (hsort : List.Sorted (· ≤ ·) i)
    (hlen : x.length = i.length) (_hne : x ≠ []) :
    basicForward sq k x (some i) none (some d)
      = basicForward sq k x none (some (csrPtr i d)) none := by
  cases k <;>
    simp only [basicForward, Aggregation.reduce, dispatchReduce, Option.getD_some] <;>
    exact congrArg Except.ok (scatter_eq_segment _ x i d hsort hlen)

/-- Witness for C1 at a concrete input: three elements in two sorted
groups, reduced with mean. -/
theorem c1_basic_index_ptr_agree_spot :
    basicForward id BasicKind.mean [1, 2, 3] (some [0, 0, 1]) none (some 2)
      = basicForward id BasicKind.mean [1, 2, 3] none (some (csrPtr [0, 0, 1] 2)) none :=
  c1_basic_index_ptr_agree id BasicKind.mean [1, 2, 3] [0, 0, 1] 2
    (by decide) (by decide) (by decide)

/-- C9: in the reduce helper, when a pointer is supplied the segment path
is taken and the index argument is ignored entirely; the scatter path is
used only when the pointer is absent, and then the index must be present
(its absence fails the assertion). -/
theorem c9_reduce_dispatch (red : RedKind) (x : List ℚ) :
    (∀ (p : List ℕ) (i i' : Option (List ℕ)) (ds ds' : Option ℕ),
        Aggregation.reduce red x i (some p) ds = Aggregation.reduce red x i' (some p) ds'
      ∧ Aggregation.reduce red x i (some p) ds = .ok (segmentModel (redList red) x p))
    ∧ (∀ (i : List ℕ) (ds : Option ℕ),
        Aggregation.reduce red x (some i) none ds
          = .ok (scatterModel (redList red) x i (ds.getD (inferredDimSize i))))
    ∧ ∀ ds : Option ℕ,
        Aggregation.reduce red x none none ds = .error PyErr.assertionFailed :=
  ⟨fun _ _ _ _ _ => ⟨rfl, rfl⟩, fun _ _ => rfl, fun _ => rfl⟩

/-- The adjacent-pairs check of the sorted-index assertion holds exactly
when every adjacent pair of the list is non-decreasing. -/
theorem allAdjacent_iff (l : List ℤ) :
    ((l.zip l.tail).all (fun p => decide (p.1 ≤ p.2)) = true)
      ↔ ∀ k, k + 1 < l.length → l.getD k 0 ≤ l.getD (k + 1) 0 := by
  induction l with
  | nil => simp
  | cons a t ih =>
    match t with
    | [] => simp
    | b :: t' =>
      rw [List.tail_cons] at ih
      rw [List.tail_cons, List.zip_cons_cons, List.all_cons, Bool.and_eq_true,
        decide_eq_true_eq, ih]
      constructor
      · rintro ⟨h1, h2⟩ k hk
        cases k with
        | zero => simpa using h1
        | succ k' =>
          have hk' : k' + 1 < (b :: t').length := by
            simp only [List.length_cons] at hk ⊢
            omega
          simpa using h2 k' hk'
      · intro h
        constructor
        · have h0 : 0 + 1 < (a :: b :: t').length := by
            simp only [List.length_cons]
            omega
          simpa using h 0 h0
        · intro k hk
          have hk' : k + 1 + 1 < (a :: b :: t').length := by
            simp only [List.length_cons] at hk ⊢
            omega
          simpa using h (k + 1) hk'

/-- C7: the sorted-index assertion fails with the not-sorted error exactly
when the supplied index has an adjacent descent (a position whose entry
exceeds its successor); a monotonically non-decreasing or absent index
passes. -/
theorem c7_assert_sorted (l : List ℤ) :
    (Aggregation.assert_sorted_index (some l) = .error PyErr.notSorted
      ↔ ∃ k, k + 1 < l.length ∧ l.getD (k + 1) 0 < l.getD k 0)
    ∧ Aggregation.assert_sorted_index none = .ok () := by
  refine ⟨?_, rfl⟩
  have h1 : (Aggregation.assert_sorted_index (some l) = .error PyErr.notSorted)
      ↔ ¬ ((l.zip l.tail).all (fun p => decide (p.1 ≤ p.2)) = true) := by
    unfold Aggregation.assert_sorted_index
    by_cases h : (l.zip l.tail).all (fun p => decide (p.1 ≤ p.2)) = true
    · simp [h]
    · simp [h]
  rw [h1, allAdjacent_iff]
  push_neg
  rfl

/-- C6: when an index is supplied without a group count (and no pointer),
the resolved group count is the index maximum plus one for a non-empty
index and zero for an empty one, and the call hands exactly this resolved
value to the concrete reduction. -/
theorem c6_index_dim_size_inference (x : Tensor) (i : List ℤ) (dim : ℤ)
    (hdim : ¬(dim ≥ (x.dim : ℤ) ∨ dim < -(x.dim : ℤ))) :
    resolveGrouping x (some i) none none dim
      = .ok ⟨x, some i, none, some (if 0 < i.length then listMaxZ i + 1 else 0), dim⟩
    ∧ ∀ (β : Type) (fwd : CanonArgs → Except PyErr β),
        Aggregation.call fwd x (some i) none none dim
          = scatterCatch
              ⟨x, some i, none, some (if 0 < i.length then listMaxZ i + 1 else 0), dim⟩
              (fwd ⟨x, some i, none, some (if 0 < i.length then listMaxZ i + 1 else 0), dim⟩) := by
  have hres : resolveGrouping x (some i) none none dim
      = .ok ⟨x, some i, none, some (if 0 < i.length then listMaxZ i + 1 else 0), dim⟩ := by
    unfold resolveGrouping
    rw [if_neg hdim]
    rfl
  refine ⟨hres, fun β fwd => ?_⟩
  unfold Aggregation.call
  rw [hres]
  rfl

/-- Witness for C6 at a concrete input. -/
theorem c6_index_dim_size_inference_spot :
    resolveGrouping ⟨[6, 16]⟩ (some [0, 0, 1, 1, 1, 2]) none none (-2)
      = .ok ⟨⟨[6, 16]⟩, some [0, 0, 1, 1, 1, 2], none, some 3, -2⟩ := by
  have h := (c6_index_dim_size_inference ⟨[6, 16]⟩ [0, 0, 1, 1, 1, 2] (-2) (by decide)).1
  simpa using h

/-- C4: when a pointer is supplied, an absent group count resolves to the
pointer length minus one; a supplied group count differing from that value
fails with the dimension-mismatch error naming the given and expected
values, with no reduction attempted (the result is this error for every
concrete strategy). -/
theorem c4_ptr_dim_size (x : Tensor) (i : Option (List ℤ)) (p : List ℤ) (dim : ℤ)
    (hdim : ¬(dim ≥ (x.dim : ℤ) ∨ dim < -(x.dim : ℤ))) :
    resolveGrouping x i (some p) none dim
      = .ok ⟨x, i, some p, some ((p.length : ℤ) - 1), dim⟩
    ∧ ∀ (β : Type) (fwd : CanonArgs → Except PyErr β) (d : ℤ),
        d ≠ (p.length : ℤ) - 1 →
        Aggregation.call fwd x i (some p) (some d) dim
          = .error (PyErr.invalidDimSizePtr d ((p.length : ℤ) - 1)) := by
  constructor
  · unfold resolveGrouping
    rw [if_neg hdim]
    cases i <;> rfl
  · intro β fwd d hne
    have hres : resolveGrouping x i (some p) (some d) dim
        = .error (PyErr.invalidDimSizePtr d ((p.length : ℤ) - 1)) := by
      unfold resolveGrouping
      rw [if_neg hdim]
      cases i
      all_goals
        change (if d ≠ (p.length : ℤ) - 1 then _ else _) = _
        rw [if_pos hne]
        rfl
    unfold Aggregation.call
    rw [hres]
    rfl

/-- Witness for C4 at the concrete input of the repository's validation
test: a pointer of length 4 with a claimed group count of 2. -/
theorem c4_ptr_dim_size_spot :
    Aggregation.call (fun _ => (.ok 0 : Except PyErr ℤ)) ⟨[6, 16]⟩ none
        (some [0, 2, 5, 6]) (some 2) (-2)
      = .error (PyErr.invalidDimSizePtr 2 3) := by
  have h := (c4_ptr_dim_size ⟨[6, 16]⟩ none [0, 2, 5, 6] (-2) (by decide)).2
    ℤ (fun _ => (.ok 0 : Except PyErr ℤ)) 2 (by decide)
  simpa using h

/-- C2: when the delegated concrete reduction raises a caught shape/index
fault, the call raises the precise invalid-dim-size error stating the
minimum required value max(index)+1 whenever the canonical index is
present and non-empty and the resolved group count does not exceed its
maximum; in every other case (index absent, index empty, or group count
above the maximum) the original fault is propagated unchanged. -/
theorem c2_fault_reinterpretation {β : Type} (fwd : CanonArgs → Except PyErr β)
    (x : Tensor) (index ptr : Option (List ℤ)) (dimSize : Option ℤ) (dim : ℤ)
    (c : CanonArgs) (e : PyErr)
    (hres : resolveGrouping x index ptr dimSize dim = .ok c)
    (hf : fwd c = .error e) (hcaught : e.isCaught = true) :
    (∀ (i : List ℤ) (d : ℤ), c.index = some i → c.dimSize = some d →
        0 < i.length → d ≤ listMaxZ i →
        Aggregation.call fwd x index ptr dimSize dim
          = .error (PyErr.invalidDimSizeScatter d (listMaxZ i + 1)))
    ∧ (c.index = none →
        Aggregation.call fwd x index ptr dimSize dim = .error e)
    ∧ (∀ i, c.index = some i → i.length = 0 →
        Aggregation.call fwd x index ptr dimSize dim = .error e)
    ∧ (∀ i d, c.index = some i → c.dimSize = some d → listMaxZ i < d →
        Aggregation.call fwd x index ptr dimSize dim = .error e) := by
  have hcall : Aggregation.call fwd x index ptr dimSize dim = scatterCatch c (fwd c) := by
    unfold Aggregation.call
    rw [hres]
    rfl
  obtain ⟨cx, ci, cp, cds, cdim⟩ := c
  refine ⟨?_, ?_, ?_, ?_⟩
  · rintro i d hi hd hlen hle
    simp only at hi hd
    subst hi
    subst hd
    rw [hcall, hf]
    simp [scatterCatch, hcaught, hlen, hle]
  · intro hi
    simp only at hi
    subst hi
    rw [hcall, hf]
    simp [scatterCatch, hcaught]
  · rintro i hi hlen
    simp only at hi
    subst hi
    rw [hcall, hf]
    cases cds <;> simp [scatterCatch, hcaught, hlen]
  · rintro i d hi hd hlt
    simp only at hi hd
    subst hi
    subst hd
    have hle : ¬(d ≤ listMaxZ i) := not_le.mpr hlt
    rw [hcall, hf]
    simp [scatterCatch, hcaught, hle]

/-- Witness for C2 at the concrete input of the repository's validation
test: four elements indexed up to 3 with a claimed group count of 2, a
runtime fault from the strategy is reinterpreted as the precise error. -/
theorem c2_fault_reinterpretation_spot :
    Aggregation.call (fun _ => (.error PyErr.runtimeFault : Except PyErr ℤ))
        ⟨[4, 16]⟩ (some [0, 1, 2, 3]) none (some 2) (-2)
      = .error (PyErr.invalidDimSizeScatter 2 4) := by
  have h := (c2_fault_reinterpretation
    (fun _ => (.error PyErr.runtimeFault : Except PyErr ℤ))
    ⟨[4, 16]⟩ (some [0, 1, 2, 3]) none (some 2) (-2)
    ⟨⟨[4, 16]⟩, some [0, 1, 2, 3], none, some 2, -2⟩ PyErr.runtimeFault
    (by rfl) (by rfl) (by rfl)).1 [0, 1, 2, 3] 2 rfl rfl (by decide) (by decide)
  simpa using h

/-- An out-of-range axis has no size: the engine lookup faults. -/
theorem Tensor.size_fault (t : Tensor) (d : ℤ)
    (h : d ≥ (t.dim : ℤ) ∨ d < -(t.dim : ℤ)) :
    t.size d = .error (PyErr.dimOutOfRange d t.dim) := by
  have hnone : t.size? d = none := by
    unfold Tensor.size?
    rw [if_neg (by omega), if_neg (by omega)]
  unfold Tensor.size
  rw [hnone]

/-- When neither index nor pointer is supplied and `dim` is out of range,
the weighted wrapper faults while synthesizing the implicit zero index,
with the engine's raw dimension fault. -/
theorem weighted_both_none_fault {β : Type}
    (fwd : Option Tensor → CanonArgs → Except PyErr β) (x : Tensor)
    (w : Option Tensor) (ds : Option ℤ) (dim : ℤ)
    (hdim : dim ≥ (x.dim : ℤ) ∨ dim < -(x.dim : ℤ)) :
    WeightedAggregation.call fwd x none w none ds dim
      = .error (PyErr.dimOutOfRange dim x.dim) := by
  unfold WeightedAggregation.call
  rw [Tensor.size_fault x dim hdim]
  rfl

/-- C10: in the weighted wrapper the single-group zero index is synthesized
from `x.size(dim)` before any dimension-range validation, so a weighted
call with neither index nor pointer and an out-of-range `dim` fails with
the engine's raw dimension fault rather than the contract's
invalid-dimension error. -/
theorem c10_weighted_raw_dim_fault {β : Type}
    (fwd : Option Tensor → CanonArgs → Except PyErr β) (x : Tensor)
    (w : Option Tensor) (ds : Option ℤ) (dim : ℤ)
    (hdim : dim ≥ (x.dim : ℤ) ∨ dim < -(x.dim : ℤ)) :
    WeightedAggregation.call fwd x none w none ds dim
      = .error (PyErr.dimOutOfRange dim x.dim)
    ∧ ∀ rank, PyErr.dimOutOfRange dim x.dim ≠ PyErr.invalidDimension dim rank :=
  ⟨weighted_both_none_fault fwd x w ds dim hdim, fun _ h => by cases h⟩

/-- Witness for C10 at a concrete input: a rank-2 tensor addressed at
`dim = -3` through the weighted wrapper with no grouping arguments. -/
theorem c10_weighted_raw_dim_fault_spot :
    WeightedAggregation.call (fun _ _ => (.ok 0 : Except PyErr ℤ)) ⟨[2, 3]⟩
        none none none none (-3)
      = .error (PyErr.dimOutOfRange (-3) 2) :=
  (c10_weighted_raw_dim_fault (fun _ _ => (.ok 0 : Except PyErr ℤ)) ⟨[2, 3]⟩
    none none (-3) (by decide)).1

/-- A valid axis of a tensor has a size. -/
theorem Tensor.size?_isSome (t : Tensor) (d : ℤ)
    (h : ¬(d ≥ (t.dim : ℤ) ∨ d < -(t.dim : ℤ))) :
    ∃ n, t.size? d = some n := by
  unfold Tensor.size?
  by_cases h1 : 0 ≤ d ∧ d < (t.dim : ℤ)
  · rw [if_pos h1]
    have hlt : d.toNat < t.shape.length := by
      unfold Tensor.dim at h1
      omega
    exact ⟨t.shape[d.toNat], List.getElem?_eq_getElem hlt⟩
  · rw [if_neg h1, if_pos (by unfold Tensor.dim at *; omega)]
    have hlt : (d + t.dim).toNat < t.shape.length := by
      unfold Tensor.dim at *
      omega
    exact ⟨t.shape[(d + t.dim).toNat], List.getElem?_eq_getElem hlt⟩

/-- The engine size lookup succeeds exactly as the pure lookup does. -/
theorem Tensor.size_ok_of_some (t : Tensor) (d : ℤ) (n : ℕ)
    (h : t.size? d = some n) : t.size d = .ok n := by
  unfold Tensor.size
  rw [h]

/-- When the index synthesis step succeeds with `n` elements, the weighted
call behaves as if the single-group zero index had been supplied. -/
theorem weighted_call_synth_ok {β : Type}
    (fwd : Option Tensor → CanonArgs → Except PyErr β) (x : Tensor) (n : ℕ)
    (w : Option Tensor) (ds : Option ℤ) (dim : ℤ) (hn : x.size dim = .ok n) :
    WeightedAggregation.call fwd x none w none ds dim
      = WeightedAggregation.call fwd x (some (List.replicate n (0 : ℤ))) w none ds dim := by
  unfold WeightedAggregation.call
  rw [hn]
  rfl

/-- With index or pointer present, a weight of rank other than one fails
the rank check before anything else can fault. -/
theorem weighted_rank_fault {β : Type}
    (fwd : Option Tensor → CanonArgs → Except PyErr β) (x : Tensor)
    (i p : Option (List ℤ)) (hip : (i.isNone && p.isNone) = false)
    (ww : Tensor) (ds : Option ℤ) (dim : ℤ) (h1 : ww.dim ≠ 1) :
    WeightedAggregation.call fwd x i (some ww) p ds dim
      = .error (PyErr.weightNotOneDim ww.dim) := by
  unfold WeightedAggregation.call
  rw [hip]
  change (if ww.dim ≠ 1 then _ else _) = _
  rw [if_pos h1]
  rfl

/-- With index or pointer present and a rank-one weight of the wrong
length, the size check fails with the mismatch error. -/
theorem weighted_sizecheck_fault {β : Type}
    (fwd : Option Tensor → CanonArgs → Except PyErr β) (x : Tensor)
    (i p : Option (List ℤ)) (hip : (i.isNone && p.isNone) = false)
    (ww : Tensor) (ds : Option ℤ) (dim : ℤ) (n : ℕ)
    (h1 : ww.dim = 1) (hn : x.size dim = .ok n) (hmis : ww.size0 ≠ n) :
    WeightedAggregation.call fwd x i (some ww) p ds dim
      = .error (PyErr.weightSizeMismatch n ww.size0) := by
  unfold WeightedAggregation.call
  rw [hip, hn]
  change (if ww.dim ≠ 1 then _ else _) = _
  rw [if_neg (fun hc => hc h1)]
  change (if ww.size0 ≠ n then _ else _) = _
  rw [if_pos hmis]
  rfl

/-- With index or pointer present and a rank-one weight and an out-of-range
`dim`, the weight size check reads `x.size(dim)` and faults raw. -/
theorem weighted_sizecheck_dim_fault {β : Type}
    (fwd : Option Tensor → CanonArgs → Except PyErr β) (x : Tensor)
    (i p : Option (List ℤ)) (hip : (i.isNone && p.isNone) = false)
    (ww : Tensor) (ds : Option ℤ) (dim : ℤ)
    (h1 : ww.dim = 1) (hdim : dim ≥ (x.dim : ℤ) ∨ dim < -(x.dim : ℤ)) :
    WeightedAggregation.call fwd x i (some ww) p ds dim
      = .error (PyErr.dimOutOfRange dim x.dim) := by
  unfold WeightedAggregation.call
  rw [hip, Tensor.size_fault x dim hdim]
  change (if ww.dim ≠ 1 then _ else _) = _
  rw [if_neg (fun hc => hc h1)]
  rfl

/-- C3 (amended): for the base contract, an out-of-range `dim` always fails
with the invalid-dimension error naming the offending value and the rank,
before any reduction work (the result is this error for every concrete
strategy).  For the weighted variant the same holds when index or pointer
is supplied and no weight is given; in the remaining weighted cases the
call still fails before any reduction, but with the raw dimension fault of
the size lookup (or the malformed-weight error), because the weighted
wrapper reads `x.size(dim)` before delegating to the dimension check. -/
theorem c3_invalid_dimension (x : Tensor) (dim : ℤ)
    (hdim : dim ≥ (x.dim : ℤ) ∨ dim < -(x.dim : ℤ)) :
    (∀ (β : Type) (fwd : CanonArgs → Except PyErr β) (i p : Option (List ℤ))
        (ds : Option ℤ),
        Aggregation.call fwd x i p ds dim = .error (PyErr.invalidDimension dim x.dim))
    ∧ (∀ (β : Type) (fwd : Option Tensor → CanonArgs → Except PyErr β)
        (i p : Option (List ℤ)) (ds : Option ℤ), (i ≠ none ∨ p ≠ none) →
        WeightedAggregation.call fwd x i none p ds dim
          = .error (PyErr.invalidDimension dim x.dim))
    ∧ (∀ (β : Type) (fwd : Option Tensor → CanonArgs → Except PyErr β)
        (i p : Option (List ℤ)) (w : Option Tensor) (ds : Option ℤ),
        ∃ e, WeightedAggregation.call fwd x i w p ds dim = .error e) := by
  have hbase : ∀ (β : Type) (fwd : CanonArgs → Except PyErr β)
      (i p : Option (List ℤ)) (ds : Option ℤ),
      Aggregation.call fwd x i p ds dim = .error (PyErr.invalidDimension dim x.dim) := by
    intro β fwd i p ds
    have hres : resolveGrouping x i p ds dim
        = .error (PyErr.invalidDimension dim x.dim) := by
      unfold resolveGrouping
      rw [if_pos hdim]
      rfl
    unfold Aggregation.call
    rw [hres]
    rfl
  have hw : ∀ (β : Type) (fwd : Option Tensor → CanonArgs → Except PyErr β)
      (i p : Option (List ℤ)) (ds : Option ℤ), (i ≠ none ∨ p ≠ none) →
      WeightedAggregation.call fwd x i none p ds dim
        = .error (PyErr.invalidDimension dim x.dim) := by
    intro β fwd i p ds hip
    rcases i with _ | il
    · rcases p with _ | pl
      · rcases hip with h | h <;> exact absurd rfl h
      · exact hbase β (fwd none) none (some pl) ds
    · exact hbase β (fwd none) (some il) p ds
  refine ⟨hbase, hw, ?_⟩
  intro β fwd i p w ds
  rcases i with _ | il
  · rcases p with _ | pl
    · exact ⟨_, weighted_both_none_fault fwd x w ds dim hdim⟩
    · rcases w with _ | ww
      · exact ⟨_, hw β fwd none (some pl) ds (Or.inr (by simp))⟩
      · by_cases h1 : ww.dim = 1
        · exact ⟨_, weighted_sizecheck_dim_fault fwd x none (some pl) rfl ww ds dim h1 hdim⟩
        · exact ⟨_, weighted_rank_fault fwd x none (some pl) rfl ww ds dim h1⟩
  · rcases w with _ | ww
    · exact ⟨_, hw β fwd (some il) p ds (Or.inl (by simp))⟩
    · by_cases h1 : ww.dim = 1
      · exact ⟨_, weighted_sizecheck_dim_fault fwd x (some il) p rfl ww ds dim h1 hdim⟩
      · exact ⟨_, weighted_rank_fault fwd x (some il) p rfl ww ds dim h1⟩

/-- Counterexample for C3 as stated: through the weighted contract, with
neither index nor pointer, a rank-2 tensor addressed at `dim = -3` fails
with the engine's raw dimension fault, not with the contract's
invalid-dimension error. -/
theorem c3_invalid_dimension_counterexample :
    WeightedAggregation.call (fun _ _ => (.ok 0 : Except PyErr ℤ)) ⟨[2, 3]⟩
        none none none none (-3)
      = .error (PyErr.dimOutOfRange (-3) 2)
    ∧ ∀ (d : ℤ) (r : ℕ), PyErr.dimOutOfRange (-3) 2 ≠ PyErr.invalidDimension d r :=
  ⟨rfl, fun _ _ h => by cases h⟩

/-- Witness for C3 (amended) at a concrete input: the base contract on a
rank-2 tensor addressed at `dim = -3`. -/
theorem c3_invalid_dimension_spot :
    Aggregation.call (fun _ => (.ok 0 : Except PyErr ℤ)) ⟨[6, 16]⟩
        (some [0, 0, 1]) none none (-3)
      = .error (PyErr.invalidDimension (-3) 2) := by
  have h := (c3_invalid_dimension ⟨[6, 16]⟩ (-3) (by decide)).1 ℤ
    (fun _ => (.ok 0 : Except PyErr ℤ)) (some [0, 0, 1]) none none
  simpa using h

/-- C5 (amended): through the weighted contract with a supplied weight,
a weight of rank other than one fails with the malformed-weight error
reporting its rank, and a rank-one weight whose length differs from the
aggregation-axis length of the input fails with the size-mismatch error
reporting both lengths, both before delegation to the concrete strategy —
provided the synthesis of the implicit zero index does not fault first,
that is, index or pointer is supplied or `dim` is in range (and, for the
size check, `dim` addresses an existing axis so that the axis length
exists). -/
theorem c5_weight_validation (x : Tensor) (ww : Tensor) (dim : ℤ) :
    (∀ (β : Type) (fwd : Option Tensor → CanonArgs → Except PyErr β)
        (i p : Option (List ℤ)) (ds : Option ℤ),
        ((i.isNone && p.isNone) = false ∨ ¬(dim ≥ (x.dim : ℤ) ∨ dim < -(x.dim : ℤ))) →
        ww.dim ≠ 1 →
        WeightedAggregation.call fwd x i (some ww) p ds dim
          = .error (PyErr.weightNotOneDim ww.dim))
    ∧ (∀ (β : Type) (fwd : Option Tensor → CanonArgs → Except PyErr β)
        (i p : Option (List ℤ)) (ds : Option ℤ) (n : ℕ),
        ww.dim = 1 → x.size? dim = some n → ww.size0 ≠ n →
        WeightedAggregation.call fwd x i (some ww) p ds dim
          = .error (PyErr.weightSizeMismatch n ww.size0)) := by
  constructor
  · intro β fwd i p ds hcases h1
    rcases i with _ | il
    · rcases p with _ | pl
      · rcases hcases with hfalse | hdim
        · simp at hfalse
        · obtain ⟨n, hn⟩ := Tensor.size?_isSome x dim hdim
          rw [weighted_call_synth_ok fwd x n (some ww) ds dim
            (Tensor.size_ok_of_some x dim n hn)]
          exact weighted_rank_fault fwd x (some (List.replicate n (0 : ℤ))) none rfl
            ww ds dim h1
      · exact weighted_rank_fault fwd x none (some pl) rfl ww ds dim h1
    · exact weighted_rank_fault fwd x (some il) p rfl ww ds dim h1
  · intro β fwd i p ds n h1 hn hmis
    have hok : x.size dim = .ok n := Tensor.size_ok_of_some x dim n hn
    rcases i with _ | il
    · rcases p with _ | pl
      · rw [weighted_call_synth_ok fwd x n (some ww) ds dim hok]
        exact weighted_sizecheck_fault fwd x (some (List.replicate n (0 : ℤ))) none rfl
          ww ds dim n h1 hok hmis
      · exact weighted_sizecheck_fault fwd x none (some pl) rfl ww ds dim n h1 hok hmis
    · exact weighted_sizecheck_fault fwd x (some il) p rfl ww ds dim n h1 hok hmis

/-- Counterexample for C5 as stated: a rank-2 weight supplied through the
weighted contract with neither index nor pointer and an out-of-range `dim`
makes the call fail with the raw dimension fault of the index synthesis,
not with the malformed-weight error. -/
theorem c5_weight_validation_counterexample :
    WeightedAggregation.call (fun _ _ => (.ok 0 : Except PyErr ℤ)) ⟨[2, 3]⟩
        none (some ⟨[6, 2]⟩) none none (-3)
      = .error (PyErr.dimOutOfRange (-3) 2)
    ∧ ∀ r : ℕ, PyErr.dimOutOfRange (-3) 2 ≠ PyErr.weightNotOneDim r :=
  ⟨rfl, fun _ h => by cases h⟩

/-- Witness for C5 (amended) at the concrete inputs of the repository's
weighted-validation test: a rank-2 weight is rejected with the
malformed-weight error. -/
theorem c5_weight_validation_spot :
    WeightedAggregation.call (fun _ _ => (.ok 0 : Except PyErr ℤ)) ⟨[6, 16]⟩
        (some [0, 0, 1, 1, 1, 2]) (some ⟨[6, 2]⟩) none none (-2)
      = .error (PyErr.weightNotOneDim 2) := by
  have h := (c5_weight_validation ⟨[6, 16]⟩ ⟨[6, 2]⟩ (-2)).1 ℤ
    (fun _ _ => (.ok 0 : Except PyErr ℤ)) (some [0, 0, 1, 1, 1, 2]) none none
    (Or.inl rfl) (by decide)
  simpa [Tensor.dim] using h

/-- C8: two invocations of the same aggregator on identical inputs and the
same parameter state return identical outputs, and the parameter state
visible to the second call is the one before the first call: the forward
computation is deterministic and mutates no state. -/
theorem c8_repeat_call_deterministic {σ β : Type}
    (fwd : σ → CanonArgs → Except PyErr β) (s : σ) (x : Tensor)
    (i p : Option (List ℤ)) (ds : Option ℤ) (dim : ℤ) (o : β) (s₂ : σ)
    (h : Aggregation.statefulCall fwd s x i p ds dim = .ok (o, s₂)) :
    s₂ = s ∧ Aggregation.statefulCall fwd s₂ x i p ds dim = .ok (o, s₂) := by
  have hs : s₂ = s := by
    unfold Aggregation.statefulCall at h
    cases hr : Aggregation.call (fwd s) x i p ds dim with
    | ok y =>
      rw [hr] at h
      simp [Except.map] at h
      exact h.2.symm
    | error e =>
      rw [hr] at h
      simp [Except.map] at h
  subst hs
  exact ⟨rfl, h⟩

/-- Witness for C8 at a concrete input: a parameter-reading strategy called
twice. -/
theorem c8_repeat_call_deterministic_spot :
    (5 : ℕ) = 5
    ∧ Aggregation.statefulCall (fun (s : ℕ) (_ : CanonArgs) => (.ok s : Except PyErr ℕ))
        5 ⟨[2, 3]⟩ none none none (-2) = .ok (5, 5) :=
  c8_repeat_call_deterministic (fun (s : ℕ) (_ : CanonArgs) => (.ok s : Except PyErr ℕ))
    5 ⟨[2, 3]⟩ none none none (-2) 5 5 (by rfl)
